import Mathlib

/-!
Verification development for the Babble/Prune two-agent refinement loop
(`src/main.py`).  The Python source is shallowly embedded below:

* text is modelled as `List Char` (one entry per Unicode code point, as in a
  Python `str`);
* Python floats are modelled as exact rationals (`ℚ`); every float literal
  appearing in the program (`7.5`, score values) is exactly representable;
* `json.loads` is modelled by a fueled recursive-descent parser over the JSON
  grammar (objects, arrays, strings with escapes, numbers, booleans, null),
  returning `Option`; raised `json.JSONDecodeError` corresponds to `none`;
* Python `dict` built from a JSON object keeps insertion order, first
  occurrence position and last duplicate value, which `dictInsert` mirrors;
* operations that can raise in Python and are not wrapped in `try` are given
  an `Except PyExc` result type; resource exhaustion (recursion/stack limits)
  is outside the model.
-/

namespace BabblePrune

/-- The character U+007B (opening curly bracket). -/
def lbrace : Char := Char.ofNat 123

/-- The character U+007D (closing curly bracket). -/
def rbrace : Char := Char.ofNat 125

/-- The character U+0022 (double quotation mark). -/
def dquote : Char := Char.ofNat 34

/-- The character U+005C (reverse solidus). -/
def bslash : Char := Char.ofNat 92

/-- Python `str.strip()` whitespace: the ASCII whitespace characters removed by
`strip` with no argument (space, tab, newline, carriage return, vertical tab,
form feed). -/
def pyWs (c : Char) : Bool :=
  c = ' ' || c = '\t' || c = '\n' || c = '\r' || c = Char.ofNat 11 || c = Char.ofNat 12

/-- Drop leading Python whitespace. -/
def dropWsLeft (s : List Char) : List Char := s.dropWhile pyWs

/-- Model of Python `str.strip()`: remove leading and trailing whitespace. -/
def pyStrip (s : List Char) : List Char :=
  (dropWsLeft ((dropWsLeft s).reverse)).reverse

/-- `hasSub s pat` is true iff `pat` occurs as a contiguous substring of `s`
(Python `pat in s`). -/
def hasSub : List Char → List Char → Bool
  | [], pat => pat.isEmpty
  | c :: t, pat => pat.isPrefixOf (c :: t) || hasSub t pat

/-- Model of the call `response.split('{\n')` in `prune_agent`: Python
`str.split` with the two-character separator `'{' '\n'`, scanning left to
right, non-overlapping. -/
def pySplitBraceNewline : List Char → List (List Char)
  | [] => [[]]
  | [c] => [[c]]
  | c1 :: c2 :: t =>
    if c1 = lbrace ∧ c2 = '\n' then
      [] :: pySplitBraceNewline t
    else
      match pySplitBraceNewline (c2 :: t) with
      | [] => [[c1]]
      | h :: r => (c1 :: h) :: r

/-! ## The refinement loop (`main`, lines 159–199)

The loop is abstracted over the sequence of per-round overall scores
(`evaluation['overall_score']` of each round), which is the quantity all of
the loop's decisions are based on.  `target_score = 7.5` and
`max_attempts = 5` are the source constants. -/

/-- `target_score = 7.5` in `main` (written as the exact rational `15/2`,
which is the value of the float literal `7.5`). -/
def target_score : ℚ := Rat.divInt 15 2

/-- `max_attempts = 5` in `main`. -/
def max_attempts : Nat := 5

/-- Result of a run of the loop in `main`: the final `best_score`, whether
`best_response`/`best_evaluation` have been set (`bestIdx = some i` means they
hold round `i`'s data, `none` means they are still `None`), the number of
completed rounds, and whether the loop exited through the success `break`. -/
structure RunResult where
  bestScore : ℚ
  bestIdx : Option Nat
  rounds : Nat
  succeeded : Bool
deriving DecidableEq, Repr

/-- One best-tracking update of `main`:
`if evaluation['overall_score'] > best_score:` sets all three `best_*`
variables to the current round's data. -/
def bestStep (st : ℚ × Option Nat) (i : Nat) (s : ℚ) : ℚ × Option Nat :=
  if s > st.1 then (s, some i) else st

/-- The `for attempt in range(max_attempts)` loop of `main`, processing rounds
`i, i+1, ...` with `budget` rounds remaining, carrying the best-so-far state.
Each round updates the best state and then breaks iff the round's score
reaches `target_score`. -/
def runLoopAux (evals : Nat → ℚ) (st : ℚ × Option Nat) (i : Nat) : Nat → RunResult
  | 0 => ⟨st.1, st.2, i, false⟩
  | b + 1 =>
    let s := evals i
    let st' := bestStep st i s
    if s ≥ target_score then ⟨st'.1, st'.2, i + 1, true⟩
    else runLoopAux evals st' (i + 1) b

/-- The whole loop of `main`: `best_score = 0`, `best_response = None`,
five rounds at threshold `7.5`. -/
def runLoop (evals : Nat → ℚ) : RunResult :=
  runLoopAux evals (0, none) 0 max_attempts

/-- Best-so-far state after rounds `0..k-1` have completed (the loop's
`best_score` / set-ness of `best_response` right after round `k-1`). -/
def bestState (evals : Nat → ℚ) : Nat → ℚ × Option Nat
  | 0 => ((0 : ℚ), none)
  | k + 1 => bestStep (bestState evals k) k (evals k)

/-- Spec-side definition, following the spec's words: the maximal
`overallScore` among attempts `0..k-1` — except that, like the code's
`best_score`, the comparison starts from `0`. Here it is the plain list
maximum seeded with `0`. -/
def maxScore (evals : Nat → ℚ) (k : Nat) : ℚ :=
  ((List.range k).map evals).foldl max 0

/-- Spec-side definition, following the spec's words: the earliest attempt
among `0..k-1` whose score attains the maximum (ties keep the earliest). -/
def firstArgmax (evals : Nat → ℚ) (k : Nat) : Option Nat :=
  (List.range k).find? (fun i => decide (evals i = maxScore evals k))

/-- The index of the first round (within the 5-round budget) whose score
reaches the threshold, if any. -/
def stopIdx (evals : Nat → ℚ) : Option Nat :=
  (List.range max_attempts).find? (fun i => decide (evals i ≥ target_score))

/-- The concrete evaluation sequence `[3.0, 8.0, 5.0]` from the spec's
controller test, extended by `5.0` past index 2. -/
def evals352 : Nat → ℚ :=
  fun i => if i = 0 then 3 else if i = 1 then 8 else 5

/-! ## JSON values and `json.loads`

`json.loads` is modelled by a fueled recursive-descent parser over
`List Char`.  Python distinguishes `int` and `float` results (and parses
`true`/`false` to `bool`, a subclass of `int`), so the value type keeps these
apart.  A JSON object becomes a Python `dict`: insertion order, first
occurrence position, last duplicate value.  Python's `json.loads` by default
also accepts the non-standard constants `NaN`, `Infinity` and `-Infinity`
(as `float('nan')`, `inf` and `-inf`); those three IEEE values fall outside
ℚ and are kept as separate constructors. -/

/-- A parsed JSON value, as produced by Python's `json.loads`. -/
inductive Json where
  | jint (n : Int)
  | jfloat (q : ℚ)
  | jstr (s : List Char)
  | jbool (b : Bool)
  | jnull
  | jnan
  | jinf
  | jninf
  | jarr (xs : List Json)
  | jobj (kvs : List (List Char × Json))

/-- Python `dict` assignment `d[k] = v`: replace the value in place if the key
is present, otherwise append the pair. -/
def dictInsert : List (List Char × Json) → List Char → Json → List (List Char × Json)
  | [], k, v => [(k, v)]
  | (k', v') :: rest, k, v =>
    if k' = k then (k', v) :: rest else (k', v') :: dictInsert rest k v

/-- Python `dict` lookup `d[k]` (as an `Option`). -/
def dictGet : List (List Char × Json) → List Char → Option Json
  | [], _ => none
  | (k', v') :: rest, k => if k' = k then some v' else dictGet rest k

/-- JSON inter-token whitespace accepted by Python's `json` module. -/
def jsonWs (c : Char) : Bool :=
  c = ' ' || c = '\t' || c = '\n' || c = '\r'

/-- Skip JSON whitespace. -/
def skipWs : List Char → List Char
  | [] => []
  | c :: t => if jsonWs c then skipWs t else c :: t

/-- Decode a single-character JSON string escape (the character after a
backslash), if it is one of the simple escapes. -/
def escChar (c : Char) : Option Char :=
  if c = dquote then some dquote
  else if c = bslash then some bslash
  else if c = '/' then some '/'
  else if c = 'b' then some (Char.ofNat 8)
  else if c = 'f' then some (Char.ofNat 12)
  else if c = 'n' then some '\n'
  else if c = 'r' then some '\r'
  else if c = 't' then some '\t'
  else none

/-- Value of a hexadecimal digit. -/
def hexVal (c : Char) : Option Nat :=
  if '0' ≤ c ∧ c ≤ '9' then some (c.toNat - 48)
  else if 'a' ≤ c ∧ c ≤ 'f' then some (c.toNat - 87)
  else if 'A' ≤ c ∧ c ≤ 'F' then some (c.toNat - 55)
  else none

/-- Combined value of four hexadecimal digit characters, if all four are
hexadecimal digits. -/
def hexVal4 (h1 h2 h3 h4 : Char) : Option Nat :=
  (hexVal h1).bind fun a =>
    (hexVal h2).bind fun b =>
      (hexVal h3).bind fun c =>
        (hexVal h4).map fun d => ((a * 16 + b) * 16 + c) * 16 + d

/-- Parse the body of a JSON string after the opening quote (state `esc` set
right after an unprocessed backslash), returning the decoded contents and the
remaining input after the closing quote.  Raw control characters are rejected
(Python's default `strict=True`); after a backslash the simple escapes and
`\uXXXX` are accepted. -/
def parseStringAux : Bool → List Char → Option (List Char × List Char)
  | _, [] => none
  | false, c :: t =>
    if c = dquote then some ([], t)
    else if c = bslash then parseStringAux true t
    else if c.toNat < 32 then none
    else (parseStringAux false t).map (fun p => (c :: p.1, p.2))
  | true, e :: t =>
    if e = 'u' then
      match t with
      | h1 :: h2 :: h3 :: h4 :: t'' =>
        (hexVal4 h1 h2 h3 h4).bind fun n =>
          (parseStringAux false t'').map (fun p => (Char.ofNat n :: p.1, p.2))
      | _ => none
    else
      (escChar e).bind fun d =>
        (parseStringAux false t).map (fun p => (d :: p.1, p.2))

/-- Parse the body of a JSON string after the opening quote. -/
def parseStringBody (s : List Char) : Option (List Char × List Char) :=
  parseStringAux false s

/-- Longest prefix of decimal digits, plus the rest. -/
def takeDigits : List Char → (List Char × List Char)
  | [] => ([], [])
  | c :: t =>
    if c.isDigit then
      let p := takeDigits t
      (c :: p.1, p.2)
    else ([], c :: t)

/-- Numeric value of a list of decimal digit characters (most significant
first). -/
def digitsToNat (ds : List Char) : Nat :=
  ds.foldl (fun a c => a * 10 + (c.toNat - 48)) 0

/-- Parse a JSON number (grammar `-?(0|[1-9][0-9]*)(\.[0-9]+)?([eE][+-]?[0-9]+)?`,
as in Python's `json` module).  Integer literals produce `jint`, literals with
a fraction or exponent produce `jfloat`. -/
def parseNumber (s : List Char) : Option (Json × List Char) :=
  let neg : Bool := decide (s.head? = some '-')
  let s1 : List Char := if neg then s.tail else s
  match s1 with
  | [] => none
  | c :: t =>
    if ¬ c.isDigit then none
    else
      let ip : List Char × List Char :=
        if c = '0' then ([c], t)
        else
          let p := takeDigits t
          (c :: p.1, p.2)
      let fr : Option (List Char) × List Char :=
        if ip.2.head? = some '.' then
          let p := takeDigits ip.2.tail
          if p.1 = [] then (none, ip.2) else (some p.1, p.2)
        else (none, ip.2)
      if fr.1 = none ∧ ip.2.head? = some '.' then none
      else
        let ex : Option (Bool × List Char) × List Char :=
          if fr.2.head? = some 'e' ∨ fr.2.head? = some 'E' then
            let r3 := fr.2.tail
            let esgn : Bool × List Char :=
              if r3.head? = some '-' then (true, r3.tail)
              else if r3.head? = some '+' then (false, r3.tail)
              else (false, r3)
            let p := takeDigits esgn.2
            if p.1 = [] then (none, fr.2) else (some (esgn.1, p.1), p.2)
          else (none, fr.2)
        match fr.1, ex.1 with
        | none, none =>
          let n : Int := digitsToNat ip.1
          some (.jint (if neg then -n else n), ip.2)
        | _, _ =>
          let k : Nat := match fr.1 with
            | some ds => ds.length
            | none => 0
          let mant : Nat := digitsToNat ip.1 * 10 ^ k +
            (match fr.1 with
             | some ds => digitsToNat ds
             | none => 0)
          let num : Int := (if neg then -(mant : Int) else (mant : Int)) *
            (match ex.1 with
             | some (false, ds) => ((10 : Nat) ^ digitsToNat ds : Nat)
             | _ => 1)
          let den : Int := ((10 : Nat) ^ k : Nat) *
            (match ex.1 with
             | some (true, ds) => ((10 : Nat) ^ digitsToNat ds : Nat)
             | _ => 1)
          some (.jfloat (Rat.divInt num den), ex.2)

mutual

/-- Parse one JSON value (after skipping leading whitespace), with fuel
bounding the recursion depth through nested values. -/
def parseValue : Nat → List Char → Option (Json × List Char)
  | 0, _ => none
  | fuel + 1, s =>
    match skipWs s with
    | [] => none
    | c :: t =>
      if c = lbrace then
        match skipWs t with
        | c' :: t' =>
          if c' = rbrace then some (.jobj [], t')
          else parseMembers fuel (c' :: t') []
        | [] => none
      else if c = '[' then
        match skipWs t with
        | c' :: t' =>
          if c' = ']' then some (.jarr [], t')
          else parseElements fuel (c' :: t') []
        | [] => none
      else if c = dquote then
        (parseStringBody t).map (fun p => (.jstr p.1, p.2))
      else if c = 't' then
        if "rue".data.isPrefixOf t then some (.jbool true, t.drop 3) else none
      else if c = 'f' then
        if "alse".data.isPrefixOf t then some (.jbool false, t.drop 4) else none
      else if c = 'n' then
        if "ull".data.isPrefixOf t then some (.jnull, t.drop 3) else none
      else if c = '-' ∨ c.isDigit then
        -- Python's scanner tries the number regex first; on failure a
        -- leading '-' may still start the constant `-Infinity`.
        match parseNumber (c :: t) with
        | some res => some res
        | none =>
          if c = '-' ∧ "Infinity".data.isPrefixOf t then some (.jninf, t.drop 8)
          else none
      else if c = 'N' then
        if "aN".data.isPrefixOf t then some (.jnan, t.drop 2) else none
      else if c = 'I' then
        if "nfinity".data.isPrefixOf t then some (.jinf, t.drop 7) else none
      else none

/-- Parse the members of a JSON object after the opening brace (nonempty
case), accumulating into a Python dict. -/
def parseMembers : Nat → List Char → List (List Char × Json) →
    Option (Json × List Char)
  | 0, _, _ => none
  | fuel + 1, s, acc =>
    match skipWs s with
    | c :: t =>
      if c = dquote then
        match parseStringBody t with
        | none => none
        | some (key, r1) =>
          match skipWs r1 with
          | c2 :: r2 =>
            if c2 = ':' then
              match parseValue fuel r2 with
              | none => none
              | some (v, r3) =>
                match skipWs r3 with
                | c4 :: r4 =>
                  if c4 = ',' then parseMembers fuel r4 (dictInsert acc key v)
                  else if c4 = rbrace then some (.jobj (dictInsert acc key v), r4)
                  else none
                | [] => none
            else none
          | [] => none
      else none
    | [] => none

/-- Parse the elements of a JSON array after the opening bracket (nonempty
case). -/
def parseElements : Nat → List Char → List Json → Option (Json × List Char)
  | 0, _, _ => none
  | fuel + 1, s, acc =>
    match parseValue fuel s with
    | none => none
    | some (v, r) =>
      match skipWs r with
      | c2 :: r2 =>
        if c2 = ',' then parseElements fuel r2 (acc ++ [v])
        else if c2 = ']' then some (.jarr (acc ++ [v]), r2)
        else none
      | [] => none

end

/-- Model of Python `json.loads`: parse one JSON value and require that only
whitespace remains (otherwise Python raises `json.JSONDecodeError`, modelled
as `none`).  Each `parseValue` recursion consumes at least one input
character first, so `s.length + 1` fuel never runs out on well-formed
input. -/
def jsonParse (s : List Char) : Option Json :=
  match parseValue (s.length + 1) s with
  | some (v, r) => if skipWs r = [] then some v else none
  | none => none

/-! ## Python `str()` of a parsed value

The f-string `f"Invalid score for {key}: {scores[key]}"` renders the
offending value with `str()`.  `str` of an `int` is its decimal form, of a
`bool` is `True`/`False`, of `None` is `None`, of a `str` is the string
itself, of containers the `repr` form with `repr` applied to elements.
`str` of a `float` is modelled for floats with an exact short decimal
expansion (which covers every value produced by this program's grammar
subset); Python's shortest-roundtrip float formatting is outside the model's
scope beyond that. -/

/-- Decimal digits of a natural number, most significant first (with fuel;
`n + 1` fuel always suffices since `n / 10 < n` for `n ≥ 10`). -/
def natToDecAux : Nat → Nat → List Char
  | 0, _ => []
  | f + 1, n =>
    if n < 10 then [Char.ofNat (48 + n)]
    else natToDecAux f (n / 10) ++ [Char.ofNat (48 + n % 10)]

/-- Decimal form of a natural number. -/
def natToDec (n : Nat) : List Char := natToDecAux (n + 1) n

/-- Decimal form of an integer (Python `str(int)`). -/
def intToDec : Int → List Char
  | .ofNat n => natToDec n
  | .negSucc n => '-' :: natToDec (n + 1)

/-- Decimal digits of the fractional part `q` (with `0 ≤ q < 1`), up to 17
places. -/
def fracDigits : Nat → ℚ → List Char
  | 0, _ => []
  | f + 1, q =>
    if q = 0 then []
    else
      let d : Int := (Rat.mul q 10).floor
      Char.ofNat (48 + d.toNat) :: fracDigits f (Rat.sub (Rat.mul q 10) (Rat.divInt d 1))

/-- Decimal form of a nonnegative rational (integer part, point, fraction
digits; a zero fractional part prints as `.0`, as Python does for floats). -/
def nonnegFloatToDec (q : ℚ) : List Char :=
  let ip := q.floor
  let fp := Rat.sub q (Rat.divInt ip 1)
  natToDec ip.toNat ++ '.' :: (if fp = 0 then ['0'] else fracDigits 17 fp)

/-- Python `str()` of a float value (modelled exactly for short decimals). -/
def floatToDec (q : ℚ) : List Char :=
  if q < 0 then '-' :: nonnegFloatToDec (Rat.neg q) else nonnegFloatToDec q

/-- Python `repr()` of a string: single-quoted unless the string contains a
single quote and no double quote; backslash, the quote character and common
control characters are escaped. -/
def pyReprStrBody (quote : Char) (s : List Char) : List Char :=
  s.flatMap fun c =>
    if c = bslash then [bslash, bslash]
    else if c = quote then [bslash, quote]
    else if c = '\n' then [bslash, 'n']
    else if c = '\r' then [bslash, 'r']
    else if c = '\t' then [bslash, 't']
    else if c.toNat < 32 then
      [bslash, 'x', (natToDec (c.toNat / 16)).headD '0', (natToDec (c.toNat % 16)).headD '0']
    else [c]

/-- Python `repr()` of a string, including the surrounding quotes. -/
def pyReprStr (s : List Char) : List Char :=
  let quote := if s.contains (Char.ofNat 39) ∧ ¬ s.contains dquote then dquote
    else Char.ofNat 39
  quote :: pyReprStrBody quote s ++ [quote]

/-- Comma-and-space-joined concatenation. -/
def joinCommaSep : List (List Char) → List Char
  | [] => []
  | [x] => x
  | x :: y :: t => x ++ ',' :: ' ' :: joinCommaSep (y :: t)

/-- Python `repr()` of a parsed value, with fuel bounding recursion into
containers. -/
def pyReprF (fuel : Nat) : Json → List Char
  | .jint n => intToDec n
  | .jfloat q => floatToDec q
  | .jbool b => if b then "True".data else "False".data
  | .jnull => "None".data
  | .jnan => "nan".data
  | .jinf => "inf".data
  | .jninf => "-inf".data
  | .jstr s => pyReprStr s
  | .jarr xs =>
    match fuel with
    | 0 => []
    | f + 1 => '[' :: joinCommaSep (xs.map (pyReprF f)) ++ [']']
  | .jobj kvs =>
    match fuel with
    | 0 => []
    | f + 1 =>
      lbrace :: joinCommaSep
        (kvs.map (fun kv => pyReprStr kv.1 ++ ':' :: ' ' :: pyReprF f kv.2)) ++ [rbrace]

mutual

/-- Nesting depth of a parsed value (enough `pyReprF` fuel to render it). -/
def jsonDepth : Json → Nat
  | .jarr xs => jsonDepthList xs + 1
  | .jobj kvs => jsonDepthKvs kvs + 1
  | _ => 1

/-- Maximum nesting depth of a list of values. -/
def jsonDepthList : List Json → Nat
  | [] => 0
  | x :: t => max (jsonDepth x) (jsonDepthList t)

/-- Maximum nesting depth of the values of a key/value list. -/
def jsonDepthKvs : List (List Char × Json) → Nat
  | [] => 0
  | kv :: t => max (jsonDepth kv.2) (jsonDepthKvs t)

end

/-- Python `str()` of a parsed value (identity on strings, `repr`-based
otherwise). -/
def pyStr (v : Json) : List Char :=
  match v with
  | .jstr s => s
  | _ => pyReprF (jsonDepth v) v

/-! ## `create_error_response` and the extraction part of `prune_agent`
(`src/main.py` lines 102–148) -/

/-- A Python dict holding an evaluation record. -/
abbrev PyDict := List (List Char × Json)

/-- `create_error_response` (lines 134–148): the fixed ten zero score fields
plus the diagnostic explanation. -/
def create_error_response (error_msg : List Char) : PyDict :=
  [("feasibility_score".data, .jint 0),
   ("character_identity_score".data, .jint 0),
   ("design_elegance_score".data, .jint 0),
   ("power_level_score".data, .jint 0),
   ("novelty_score".data, .jint 0),
   ("purpose_score".data, .jint 0),
   ("uniqueness_score".data, .jint 0),
   ("adherence_score".data, .jint 0),
   ("consistency_score".data, .jint 0),
   ("overall_score".data, .jint 0),
   ("explanation".data, .jstr error_msg)]

/-- Whether `v` is the integer `0`. -/
def isJint0 : Json → Bool
  | .jint n => decide (n = 0)
  | _ => false

/-- Whether `d` is an ErrorRecord, i.e. exactly the shape produced by
`create_error_response` for some message. -/
def isErrorRecord (d : PyDict) : Bool :=
  match d with
  | [(k1, v1), (k2, v2), (k3, v3), (k4, v4), (k5, v5), (k6, v6), (k7, v7),
     (k8, v8), (k9, v9), (k10, v10), (k11, v11)] =>
    decide (k1 = "feasibility_score".data) && isJint0 v1 &&
    decide (k2 = "character_identity_score".data) && isJint0 v2 &&
    decide (k3 = "design_elegance_score".data) && isJint0 v3 &&
    decide (k4 = "power_level_score".data) && isJint0 v4 &&
    decide (k5 = "novelty_score".data) && isJint0 v5 &&
    decide (k6 = "purpose_score".data) && isJint0 v6 &&
    decide (k7 = "uniqueness_score".data) && isJint0 v7 &&
    decide (k8 = "adherence_score".data) && isJint0 v8 &&
    decide (k9 = "consistency_score".data) && isJint0 v9 &&
    decide (k10 = "overall_score".data) && isJint0 v10 &&
    decide (k11 = "explanation".data) &&
    (match v11 with
     | .jstr _ => true
     | _ => false)
  | _ => false

/-- The markdown cleanup of `prune_agent` (lines 102–110): strip, remove one
leading ```` ```json ```` or ```` ``` ```` fence, remove one trailing
```` ``` ```` fence, strip again. -/
def cleanResponse (resp : List Char) : List Char :=
  let r1 := pyStrip resp
  let r2 :=
    if "```json".data.isPrefixOf r1 then r1.drop 7
    else if "```".data.isPrefixOf r1 then r1.drop 3
    else r1
  let r3 := if "```".data.isSuffixOf r2 then r2.take (r2.length - 3) else r2
  pyStrip r3

/-- Whether a parsed value passes the score check of lines 124–125: Python's
`isinstance(v, (int, float))` (true for `int`, `float` and `bool`, since
`bool` is a subclass of `int`) and then `not (v < 0 or v > 10)`, with
short-circuiting so the comparisons only run on numeric values.  `True`
compares as `1` and `False` as `0`. -/
def scoreOk : Json → Bool
  | .jint n => decide (¬ n < 0) && decide (¬ n > 10)
  | .jfloat q => decide (¬ q < 0) && decide (¬ q > 10)
  | .jbool _ => true
  -- IEEE comparisons: `nan < 0` and `nan > 10` are both False, so `NaN`
  -- passes the check; `inf > 10` and `-inf < 0` are True, so infinities fail.
  | .jnan => true
  | .jinf => false
  | .jninf => false
  | _ => false

/-- Whether a key is subject to score validation:
`key != 'overall_score' and key.endswith('_score')`. -/
def isScoreKey (k : List Char) : Bool :=
  decide (¬ k = "overall_score".data) && "_score".data.isSuffixOf k

/-- The validation loop of lines 123–126: the first key/value pair (in dict
iteration order) failing the score check, if any. -/
def validateScores : PyDict → Option (List Char × Json)
  | [] => none
  | (k, v) :: rest =>
    if isScoreKey k ∧ ¬ scoreOk v then some (k, v) else validateScores rest

/-- Exceptions a modelled Python operation can raise. -/
inductive PyExc where
  | typeError
  | keyError
  | attributeError
  | unicodeDecodeError
deriving DecidableEq, Repr

/-- The structured-result extraction of `prune_agent` (lines 102–131): the
whole post-transport part, from markdown cleanup to the returned record.
An uncaught exception is modelled as `.error`; the only candidate point is
iterating a non-dict parse result, which cannot occur because the parsed
text starts with an opening brace. -/
def prune_agent_extract (resp : List Char) : Except PyExc PyDict :=
  let response := cleanResponse resp
  match pySplitBraceNewline response with
  | [p0, p1] =>
    let explanation := pyStrip p0
    let json_str := lbrace :: pyStrip p1
    match jsonParse json_str with
    | none =>
      .ok (create_error_response
        ("Failed to parse evaluation JSON. Raw response: ".data ++ response))
    | some (.jobj scores) =>
      match validateScores scores with
      | some kv =>
        .ok (create_error_response
          ("Invalid score for ".data ++ kv.1 ++ ':' :: ' ' :: pyStr kv.2))
      | none => .ok (dictInsert scores "explanation".data (.jstr explanation))
    | some _ =>
      -- `for key in scores` / `scores['explanation'] = ...` on a non-dict
      -- value raises; unreachable since `json_str` starts with a brace.
      .error .typeError
  | _ =>
    .ok (create_error_response
      ("Failed to parse evaluation. Raw response: ".data ++ response))

/-! ## The streaming aggregation loop of `call_openai_api`
(`src/main.py` lines 40–61)

`response.iter_lines()` yields the response's lines as byte strings; the
model abstracts each line as either a byte sequence that is valid UTF-8
(carrying its decoded text) or one that is not.  The loop body decodes the
line (`line.decode('utf-8')` — an invalid line raises `UnicodeDecodeError`,
uncaught), strips the `data: ` prefix, stops at `[DONE]`, and otherwise
parses the payload as JSON inside a `try` that swallows only
`json.JSONDecodeError`; subscripting and `len` on unexpected payload shapes
raise uncaught exceptions. -/

/-- One line from `response.iter_lines()`: a byte string that either decodes
as UTF-8 to some text, or does not. -/
inductive RawLine where
  | text (s : List Char)
  | undecodable

/-- Whether the line's byte string is empty (the loop's `if line:` filter).
An undecodable byte string is necessarily nonempty. -/
def RawLine.isEmptyBytes : RawLine → Bool
  | .text s => s.isEmpty
  | .undecodable => false

/-- `line.decode('utf-8')`: the decoded text, or `none` when the bytes are
not valid UTF-8 (Python raises `UnicodeDecodeError`). -/
def RawLine.decodeUtf8 : RawLine → Option (List Char)
  | .text s => some s
  | .undecodable => none

/-- `json_object['choices']`: dict subscription.  A missing key raises
`KeyError`; subscribing a non-container raises `TypeError`; lists demand
integer indices. -/
def pySubscrStr (j : Json) (k : List Char) : Except PyExc Json :=
  match j with
  | .jobj d =>
    match dictGet d k with
    | some v => .ok v
    | none => .error .keyError
  | .jarr _ => .error .typeError
  | .jstr _ => .error .typeError
  | _ => .error .typeError

/-- Python `len()`: defined for strings, lists and dicts, `TypeError`
otherwise. -/
def pyLen (j : Json) : Except PyExc Nat :=
  match j with
  | .jstr s => .ok s.length
  | .jarr xs => .ok xs.length
  | .jobj d => .ok d.length
  | _ => .error .typeError

/-- `choices[0]` on a value known to have positive `len`: first list element,
one-character string for strings, `KeyError` for dicts (JSON object keys are
strings, never `0`). -/
def pyIndexZero (j : Json) : Except PyExc Json :=
  match j with
  | .jarr (x :: _) => .ok x
  | .jarr [] => .error .typeError
  | .jstr (c :: _) => .ok (.jstr [c])
  | .jstr [] => .error .typeError
  | .jobj _ => .error .keyError
  | _ => .error .typeError

/-- `choices[0].get('delta', {})`: `.get` exists only on dicts
(`AttributeError` otherwise); returns the value or the empty-dict default. -/
def pyGetDefault (j : Json) (k : List Char) (dflt : Json) : Except PyExc Json :=
  match j with
  | .jobj d =>
    match dictGet d k with
    | some v => .ok v
    | none => .ok dflt
  | _ => .error .attributeError

/-- `'content' in delta`: key containment for dicts, element membership for
lists (string equality with each element), substring test for strings,
`TypeError` otherwise. -/
def pyInJ (k : List Char) (j : Json) : Except PyExc Bool :=
  match j with
  | .jobj d => .ok (dictGet d k).isSome
  | .jarr xs =>
    .ok (xs.any fun x =>
      match x with
      | .jstr s => decide (s = k)
      | _ => false)
  | .jstr s => .ok (hasSub s k)
  | _ => .error .typeError

/-- The frame-processing part of the loop body (lines 50–56): extract
`choices[0]['delta']['content']` if present, propagating the exceptions the
Python expressions can raise.  Returns the content text to append, or `none`
when the frame carries no content. -/
def frameContent (j : Json) : Except PyExc (Option (List Char)) := do
  let choices ← pySubscrStr j "choices".data
  let n ← pyLen choices
  if n = 0 then
    return none
  else
    let elt ← pyIndexZero choices
    let delta ← pyGetDefault elt "delta".data (.jobj [])
    let has ← pyInJ "content".data delta
    if has then
      let content ← pySubscrStr delta "content".data
      match content with
      | .jstr s => return some s
      | _ => .error .typeError
    else
      return none

/-- Loop state: still accumulating, stopped via the `[DONE]` break, or an
uncaught exception was raised. -/
inductive AggState where
  | going (acc : List Char)
  | finished (acc : List Char)
  | raised (e : PyExc)

/-- One iteration of the `for line in response.iter_lines()` body: skip empty
byte lines, decode (raising on invalid UTF-8), require the `data: ` prefix,
break on `[DONE]`, JSON-parse the payload with `json.JSONDecodeError`
swallowed (`continue`), and append the frame's content if any. -/
def stepLine (acc : List Char) (l : RawLine) : AggState :=
  if l.isEmptyBytes then .going acc
  else
    match l.decodeUtf8 with
    | none => .raised .unicodeDecodeError
    | some line =>
      if "data: ".data.isPrefixOf line then
        let rest := line.drop 6
        if rest = "[DONE]".data then .finished acc
        else
          match jsonParse rest with
          | none => .going acc
          | some j =>
            match frameContent j with
            | .error e => .raised e
            | .ok none => .going acc
            | .ok (some c) => .going (acc ++ c)
      else .going acc

/-- Fold the loop body over the lines; `finished` (the `break`) and `raised`
absorb all further lines. -/
def aggStep (st : AggState) (l : RawLine) : AggState :=
  match st with
  | .going acc => stepLine acc l
  | st => st

/-- The aggregation part of `call_openai_api` (lines 40–61): fold the loop
over all lines and return `full_response.strip()`, or the uncaught
exception. -/
def call_openai_api_aggregate (ls : List RawLine) : Except PyExc (List Char) :=
  match ls.foldl aggStep (.going []) with
  | .going acc => .ok (pyStrip acc)
  | .finished acc => .ok (pyStrip acc)
  | .raised e => .error e

/-- A well-formed content frame carrying content `c`, as the transport sends
them: `data: ` followed by a JSON object
`{"choices": [{"delta": {"content": "<c>"}}]}` with `c` escaped. -/
def escapeSimple (s : List Char) : List Char :=
  s.flatMap fun c =>
    if c = dquote then [bslash, dquote]
    else if c = bslash then [bslash, bslash]
    else [c]

/-- The serialized frame object for content `c`. -/
def renderFrame (c : List Char) : List Char :=
  lbrace :: dquote :: "choices".data ++ dquote :: ':' :: ' ' :: '[' ::
    lbrace :: dquote :: "delta".data ++ dquote :: ':' :: ' ' ::
    lbrace :: dquote :: "content".data ++ dquote :: ':' :: ' ' ::
    dquote :: escapeSimple c ++ dquote :: rbrace :: rbrace :: ']' :: rbrace :: []

/-- The parsed frame object for content `c`. -/
def frameJson (c : List Char) : Json :=
  .jobj [("choices".data,
    .jarr [.jobj [("delta".data, .jobj [("content".data, .jstr c)])]])]

/-- A transport line: `none` is a keep-alive (empty) line, `some c` a content
frame carrying `c`. -/
def fragLine : Option (List Char) → RawLine
  | none => .text []
  | some c => .text ("data: ".data ++ renderFrame c)

/-- The stream's end marker line `data: [DONE]`. -/
def doneLine : RawLine := .text "data: [DONE]".data

/-! ## Derived definitions used by the claim developments: the two-character
record-opening delimiter, validity and explanation accessors for records,
and the concrete raw text of the C4 counterexample. -/

/-- The record-opening delimiter `prune_agent` splits on: an opening brace
immediately followed by a newline (the two-character separator of
`response.split('{\n')`). -/
def braceNl : List Char := [lbrace, '\n']

/-- A record is `valid` when it carries an `explanation` field and every
validated score field (name ending `_score`, other than `overall_score`)
passes the numeric range check. -/
def validRecord (d : PyDict) : Bool :=
  (dictGet d "explanation".data).isSome &&
  d.all fun kv => !(isScoreKey kv.1) || scoreOk kv.2

/-- The `explanation` text carried by a record (empty if absent or not a
string). -/
def getExplanation (d : PyDict) : List Char :=
  match dictGet d "explanation".data with
  | some (.jstr m) => m
  | _ => []

/-- A raw text whose record-opening brace begins a line (it directly follows a
newline) but is followed by a space rather than a newline, so `split` on the
two-character brace+newline delimiter finds nothing. -/
def c4raw : List Char :=
  "Nice.".data ++ '\n' :: lbrace :: ' ' :: dquote ::
    ("a_score".data ++ dquote :: ':' :: ' ' :: '5' :: ' ' :: [rbrace])

/-! ## Lemmas about the refinement loop -/

theorem foldl_max_init_le (l : List ℚ) : ∀ a : ℚ, a ≤ l.foldl max a := by
  induction l with
  | nil => intro a; exact le_refl a
  | cons x t ih =>
    intro a
    exact le_trans (le_max_left a x) (ih (max a x))

theorem foldl_max_le_of_mem (l : List ℚ) :
    ∀ a x : ℚ, x ∈ l → x ≤ l.foldl max a := by
  induction l with
  | nil => intro a x h; cases h
  | cons y t ih =>
    intro a x h
    rcases List.mem_cons.mp h with rfl | h
    · exact le_trans (le_max_right a x) (foldl_max_init_le t (max a x))
    · exact ih (max a y) x h

theorem foldl_max_eq_or_mem (l : List ℚ) :
    ∀ a : ℚ, l.foldl max a = a ∨ l.foldl max a ∈ l := by
  induction l with
  | nil => intro a; exact Or.inl rfl
  | cons x t ih =>
    intro a
    rcases ih (max a x) with h | h
    · rcases max_cases a x with ⟨hm, _⟩ | ⟨hm, _⟩
      · exact Or.inl (by rw [List.foldl_cons, h, hm])
      · exact Or.inr (by rw [List.foldl_cons, h, hm]; exact List.mem_cons_self x t)
    · exact Or.inr (List.mem_cons_of_mem x h)

theorem maxScore_succ (evals : Nat → ℚ) (k : Nat) :
    maxScore evals (k + 1) = max (maxScore evals k) (evals k) := by
  unfold maxScore
  rw [List.range_succ, List.map_append, List.foldl_append]
  rfl

theorem maxScore_nonneg (evals : Nat → ℚ) (k : Nat) : 0 ≤ maxScore evals k :=
  foldl_max_init_le _ 0

theorem le_maxScore_of_lt (evals : Nat → ℚ) {i k : Nat} (h : i < k) :
    evals i ≤ maxScore evals k :=
  foldl_max_le_of_mem _ 0 _ (List.mem_map_of_mem evals (List.mem_range.mpr h))

theorem maxScore_attained (evals : Nat → ℚ) (k : Nat)
    (h : maxScore evals k ≠ 0) : ∃ i ∈ List.range k, evals i = maxScore evals k := by
  rcases foldl_max_eq_or_mem ((List.range k).map evals) 0 with h0 | hm
  · exact absurd h0 h
  · rcases List.mem_map.mp hm with ⟨i, hi, hv⟩
    exact ⟨i, hi, hv⟩

theorem runLoopAux_best (evals : Nat → ℚ) :
    ∀ (b i : Nat),
      ((runLoopAux evals (bestState evals i) i b).bestScore,
       (runLoopAux evals (bestState evals i) i b).bestIdx) =
        bestState evals (runLoopAux evals (bestState evals i) i b).rounds := by
  intro b
  induction b with
  | zero => intro i; rfl
  | succ b ih =>
    intro i
    show ((runLoopAux evals (bestState evals i) i (b + 1)).bestScore, _) = _
    rw [runLoopAux]
    by_cases h : evals i ≥ target_score
    · simp only [h, if_pos]
      rfl
    · simp only [h, if_neg, not_false_iff]
      have : bestStep (bestState evals i) i (evals i) = bestState evals (i + 1) := rfl
      rw [this]
      exact ih (i + 1)

theorem runLoopAux_stop (evals : Nat → ℚ) :
    ∀ (b i : Nat) (st : ℚ × Option Nat),
      (runLoopAux evals st i b).rounds =
        (match (List.range' i b).find? (fun j => decide (evals j ≥ target_score)) with
         | some j => j + 1
         | none => i + b) ∧
      (runLoopAux evals st i b).succeeded =
        ((List.range' i b).find? (fun j => decide (evals j ≥ target_score))).isSome := by
  intro b
  induction b with
  | zero => intro i st; exact ⟨rfl, rfl⟩
  | succ b ih =>
    intro i st
    rw [runLoopAux, List.range'_succ]
    by_cases h : evals i ≥ target_score
    · rw [List.find?_cons_of_pos _ (by simpa using h)]
      rw [if_pos h]
      exact ⟨rfl, rfl⟩
    · rw [List.find?_cons_of_neg _ (by simpa using h)]
      rw [if_neg h]
      refine ⟨(ih (i + 1) _).1.trans ?_, (ih (i + 1) _).2⟩
      cases (List.range' (i + 1) b).find? (fun j => decide (evals j ≥ target_score)) with
      | none => show i + 1 + b = i + (b + 1); omega
      | some j => rfl

theorem bestState_spec (evals : Nat → ℚ) (k : Nat) :
    bestState evals k =
      (maxScore evals k,
       if 0 < maxScore evals k then firstArgmax evals k else none) := by
  induction k with
  | zero =>
    have h0 : maxScore evals 0 = 0 := rfl
    show ((0 : ℚ), (none : Option Nat)) = _
    rw [h0, if_neg (lt_irrefl 0)]
  | succ k ih =>
    have hm := maxScore_succ evals k
    show bestStep (bestState evals k) k (evals k) = _
    rw [ih]
    unfold bestStep
    by_cases h : evals k > maxScore evals k
    · rw [if_pos h]
      have hmax : maxScore evals (k + 1) = evals k := by
        rw [hm]; exact max_eq_right h.le
      have hpos : 0 < maxScore evals (k + 1) :=
        hmax ▸ lt_of_le_of_lt (maxScore_nonneg evals k) h
      rw [if_pos hpos]
      have hnone : (List.range k).find?
          (fun i => decide (evals i = maxScore evals (k + 1))) = none := by
        rw [List.find?_eq_none]
        intro i hi
        simp only [decide_eq_true_eq]
        intro he
        rw [hmax] at he
        exact absurd he
          (ne_of_lt (lt_of_le_of_lt (le_maxScore_of_lt evals (List.mem_range.mp hi)) h))
      have hfa : firstArgmax evals (k + 1) = some k := by
        unfold firstArgmax
        rw [List.range_succ, List.find?_append, hnone]
        simp only [Option.none_orElse, List.find?_cons, List.find?_nil]
        rw [decide_eq_true (hmax.symm)]
        rfl
      rw [hfa, hmax]
    · rw [if_neg h]
      have hle : evals k ≤ maxScore evals k := not_lt.mp h
      have hmax : maxScore evals (k + 1) = maxScore evals k := by
        rw [hm]; exact max_eq_left hle
      rw [hmax]
      by_cases hp : 0 < maxScore evals k
      · rw [if_pos hp, if_pos hp]
        have ⟨i, hi, hv⟩ := maxScore_attained evals k hp.ne'
        have hsome : ∃ j, (List.range k).find?
            (fun i => decide (evals i = maxScore evals k)) = some j := by
          rw [← Option.isSome_iff_exists, List.find?_isSome]
          exact ⟨i, hi, decide_eq_true hv⟩
        obtain ⟨j, hj⟩ := hsome
        unfold firstArgmax
        rw [hmax, List.range_succ, List.find?_append, hj]
        rfl
      · rw [if_neg hp, if_neg hp]

/-- Claim C1 (amended): after each completed round `k`, when the maximal
overall score among attempts `0..k-1` is strictly positive, the tracked best
is the earliest attempt attaining that maximum, and its score is that
maximum; when the maximum is not strictly positive (in particular when every
round's score is `0`), no best attempt is tracked (`best_response` stays
`None`, so the run reports that no valid ideas were generated).  The second
conjunct ties the per-round state `bestState` to the actual loop. -/
theorem c1_best_tracking_amended :
    (∀ (evals : Nat → ℚ) (k : Nat),
      bestState evals k =
        (maxScore evals k,
         if 0 < maxScore evals k then firstArgmax evals k else none)) ∧
    (∀ evals : Nat → ℚ,
      ((runLoop evals).bestScore, (runLoop evals).bestIdx) =
        bestState evals (runLoop evals).rounds) :=
  ⟨bestState_spec, fun evals => runLoopAux_best evals max_attempts 0⟩

/-- Claim C1, counterexample: when every round's overall score is `0` the
claim states that the round-0 attempt is still the tracked/reported best,
i.e. that the tracked best equals the earliest maximal attempt (`some 0`);
but the code's `best_score` starts at `0` and is only beaten by a strictly
greater score, so `best_response` remains `None` and the run reports no
attempt at all. -/
theorem c1_counterexample :
    (runLoop (fun _ => (0 : ℚ))).bestIdx = none ∧
    firstArgmax (fun _ => (0 : ℚ)) max_attempts = some 0 ∧
    (runLoop (fun _ => (0 : ℚ))).bestIdx ≠ firstArgmax (fun _ => (0 : ℚ)) max_attempts := by
  refine ⟨by decide, by decide, by decide⟩

/-- Claim C2: the refinement loop stops at the first round whose overall
score reaches the threshold `7.5` (`succeeded` true), and otherwise runs
exactly `max_attempts = 5` rounds; concretely, for the score sequence
`[3.0, 8.0, 5.0]` it stops after round index 1 with best score `8.0`. -/
theorem c2_loop_stopping :
    (∀ evals : Nat → ℚ,
      (runLoop evals).rounds =
        (match stopIdx evals with
         | some i => i + 1
         | none => max_attempts) ∧
      (runLoop evals).succeeded = (stopIdx evals).isSome) ∧
    runLoop evals352 = ⟨8, some 1, 2, true⟩ := by
  constructor
  · intro evals
    have h := runLoopAux_stop evals max_attempts 0 (0, none)
    unfold stopIdx
    rw [List.range_eq_range']
    exact h
  · decide

/-! ## Lemmas about substring search, the record delimiter and cleanup -/

theorem hasSub_iff (pat : List Char) :
    ∀ s : List Char, hasSub s pat = true ↔ ∃ l r, s = l ++ pat ++ r := by
  intro s
  induction s with
  | nil =>
    simp only [hasSub, List.isEmpty_iff]
    constructor
    · rintro rfl; exact ⟨[], [], rfl⟩
    · rintro ⟨l, r, h⟩
      rcases List.append_eq_nil.mp h.symm with ⟨h1, h2⟩
      exact (List.append_eq_nil.mp h1).2
  | cons c t ih =>
    simp only [hasSub, Bool.or_eq_true]
    constructor
    · rintro (hp | hs)
      · rcases List.isPrefixOf_iff_prefix.mp hp with ⟨r, hr⟩
        exact ⟨[], r, hr.symm⟩
      · rcases ih.mp hs with ⟨l, r, hr⟩
        exact ⟨c :: l, r, by rw [hr]; rfl⟩
    · rintro ⟨l, r, hr⟩
      cases l with
      | nil =>
        exact Or.inl (List.isPrefixOf_iff_prefix.mpr ⟨r, by simpa using hr.symm⟩)
      | cons c' l' =>
        refine Or.inr (ih.mpr ⟨l', r, ?_⟩)
        simpa using congrArg List.tail hr

theorem hasSub_of_within {s t pat : List Char} (hinf : s <:+: t)
    (h : hasSub s pat = true) : hasSub t pat = true := by
  rcases (hasSub_iff pat s).mp h with ⟨l, r, hr⟩
  rcases hinf with ⟨a, b, hab⟩
  refine (hasSub_iff pat t).mpr ⟨a ++ l, r ++ b, ?_⟩
  rw [← hab, hr]
  simp [List.append_assoc]

theorem pyStrip_within (s : List Char) : pyStrip s <:+: s := by
  unfold pyStrip
  have h1 : dropWsLeft s <:+ s := List.dropWhile_suffix pyWs
  have h2 : dropWsLeft ((dropWsLeft s).reverse) <:+ (dropWsLeft s).reverse :=
    List.dropWhile_suffix pyWs
  have h3 : (dropWsLeft ((dropWsLeft s).reverse)).reverse <+: dropWsLeft s := by
    rw [← List.reverse_reverse (dropWsLeft s)] at h2 ⊢
    rw [List.reverse_prefix]
    simpa using h2
  exact h3.isInfix.trans h1.isInfix

theorem cleanResponse_within (s : List Char) : cleanResponse s <:+: s := by
  unfold cleanResponse
  dsimp only
  repeat' split
  all_goals
    first
      | exact (pyStrip_within _).trans
          (((List.take_prefix _ _).isInfix).trans
            (((List.drop_suffix _ _).isInfix).trans (pyStrip_within s)))
      | exact (pyStrip_within _).trans
          (((List.take_prefix _ _).isInfix).trans (pyStrip_within s))
      | exact (pyStrip_within _).trans
          (((List.drop_suffix _ _).isInfix).trans (pyStrip_within s))
      | exact (pyStrip_within _).trans (pyStrip_within s)

theorem hasSub_cons_of_hasSub {c : Char} {t pat : List Char}
    (h : hasSub t pat = true) : hasSub (c :: t) pat = true := by
  rcases (hasSub_iff pat t).mp h with ⟨l, r, hr⟩
  exact (hasSub_iff pat _).mpr ⟨c :: l, r, by rw [hr]; simp⟩

theorem pySplitBraceNewline_eq_single :
    ∀ s : List Char, hasSub s braceNl = false → pySplitBraceNewline s = [s] := by
  intro s
  induction s using pySplitBraceNewline.induct with
  | case1 => intro _; rfl
  | case2 c => intro _; rfl
  | case3 c1 c2 t h ih =>
    intro hs
    exfalso
    have : hasSub (c1 :: c2 :: t) braceNl = true := by
      refine (hasSub_iff braceNl _).mpr ⟨[], t, ?_⟩
      rw [h.1, h.2]; rfl
    rw [hs] at this
    exact Bool.false_ne_true this
  | case4 c1 c2 t h hnil ih =>
    intro hs
    have ht : hasSub (c2 :: t) braceNl = false := by
      cases hsub : hasSub (c2 :: t) braceNl with
      | false => rfl
      | true =>
        rw [hasSub_cons_of_hasSub hsub] at hs
        exact Bool.noConfusion hs
    rw [ih ht] at hnil
    exact absurd hnil (by simp)
  | case5 c1 c2 t h hd r hcons ih =>
    intro hs
    have ht : hasSub (c2 :: t) braceNl = false := by
      cases hsub : hasSub (c2 :: t) braceNl with
      | false => rfl
      | true =>
        rw [hasSub_cons_of_hasSub hsub] at hs
        exact Bool.noConfusion hs
    rw [pySplitBraceNewline, if_neg h, ih ht]

/-- Claim C6: for every raw text containing no record-opening delimiter
(the two-character sequence brace/newline), extraction returns the
ErrorRecord whose explanation is exactly
`"Failed to parse evaluation. Raw response: "` followed by the cleaned raw
text — and `create_error_response` sets every numeric field to `0`. -/
theorem c6_no_delimiter (raw : List Char) (h : hasSub raw braceNl = false) :
    prune_agent_extract raw =
      .ok (create_error_response
        ("Failed to parse evaluation. Raw response: ".data ++ cleanResponse raw)) := by
  have hc : hasSub (cleanResponse raw) braceNl = false := by
    cases hsub : hasSub (cleanResponse raw) braceNl with
    | false => rfl
    | true =>
      rw [hasSub_of_within (cleanResponse_within raw) hsub] at h
      exact Bool.noConfusion h
  unfold prune_agent_extract
  dsimp only
  rw [pySplitBraceNewline_eq_single _ hc]

/-- Witness for C6 at the concrete input `"hello"`. -/
theorem c6_no_delimiter_witness :
    hasSub "hello".data braceNl = false ∧
    prune_agent_extract "hello".data =
      .ok (create_error_response
        ("Failed to parse evaluation. Raw response: ".data ++ cleanResponse "hello".data)) :=
  ⟨by decide, c6_no_delimiter "hello".data (by decide)⟩

/-! ## Shape lemmas for extraction results -/

theorem isErrorRecord_cer (msg : List Char) :
    isErrorRecord (create_error_response msg) = true := rfl

theorem parseMembers_jobj : ∀ (f : Nat) (s : List Char) (acc : List (List Char × Json))
    (v : Json) (r : List Char), parseMembers f s acc = some (v, r) → ∃ d, v = .jobj d := by
  intro f
  induction f with
  | zero =>
    intro s acc v r h
    exact absurd h (by simp [parseMembers])
  | succ f ih =>
    intro s acc v r h
    rw [parseMembers] at h
    repeat' split at h
    all_goals first
      | exact ih _ _ _ _ h
      | (rw [Option.some_inj] at h; exact ⟨_, (congrArg Prod.fst h).symm⟩)
      | exact absurd h (by simp)

theorem parseValue_lbrace_obj : ∀ (f : Nat) (s : List Char) (v : Json) (r : List Char),
    parseValue f (lbrace :: s) = some (v, r) → ∃ d, v = .jobj d := by
  intro f
  cases f with
  | zero =>
    intro s v r h
    exact absurd h (by simp [parseValue])
  | succ f =>
    intro s v r h
    rw [parseValue] at h
    have hws : skipWs (lbrace :: s) = lbrace :: s := by
      rw [skipWs, if_neg]
      decide
    rw [hws] at h
    dsimp only at h
    rw [if_pos rfl] at h
    repeat' split at h
    all_goals first
      | exact parseMembers_jobj _ _ _ _ _ h
      | (rw [Option.some_inj] at h; exact ⟨_, (congrArg Prod.fst h).symm⟩)
      | exact absurd h (by simp)

theorem jsonParse_lbrace_obj (s : List Char) (j : Json)
    (h : jsonParse (lbrace :: s) = some j) : ∃ d, j = .jobj d := by
  unfold jsonParse at h
  cases hpv : parseValue ((lbrace :: s).length + 1) (lbrace :: s) with
  | none => rw [hpv] at h; exact absurd h (by simp)
  | some vr =>
    obtain ⟨v0, r0⟩ := vr
    rw [hpv] at h
    dsimp only at h
    by_cases hr : skipWs r0 = []
    · rw [if_pos hr, Option.some_inj] at h
      rcases parseValue_lbrace_obj _ _ _ _ hpv with ⟨d, hd⟩
      exact ⟨d, h ▸ hd⟩
    · rw [if_neg hr] at h
      exact absurd h (by simp)

theorem mem_dictInsert : ∀ (d : PyDict) (k : List Char) (v : Json)
    (kv : List Char × Json), kv ∈ dictInsert d k v → kv ∈ d ∨ kv = (k, v) ∨ kv.1 = k := by
  intro d k v kv
  induction d with
  | nil =>
    intro h
    rcases List.mem_singleton.mp h with rfl
    exact Or.inr (Or.inl rfl)
  | cons hd rest ih =>
    intro h
    rw [dictInsert] at h
    split at h
    · rcases List.mem_cons.mp h with rfl | hmem
      · exact Or.inr (Or.inr (by assumption))
      · exact Or.inl (List.mem_cons_of_mem hd hmem)
    · rcases List.mem_cons.mp h with rfl | hmem
      · exact Or.inl (List.mem_cons_self _ _)
      · rcases ih hmem with h1 | h2
        · exact Or.inl (List.mem_cons_of_mem hd h1)
        · exact Or.inr h2

theorem dictGet_dictInsert_self : ∀ (d : PyDict) (k : List Char) (v : Json),
    dictGet (dictInsert d k v) k = some v := by
  intro d k v
  induction d with
  | nil => simp [dictInsert, dictGet]
  | cons hd rest ih =>
    rw [dictInsert]
    split
    · rw [dictGet, if_pos (by assumption)]
    · rw [dictGet, if_neg (by assumption)]
      exact ih

theorem dictGet_dictInsert_ne : ∀ (d : PyDict) (k kq : List Char) (v : Json),
    ¬ k = kq → dictGet (dictInsert d k v) kq = dictGet d kq := by
  intro d k kq v hne
  induction d with
  | nil => simp [dictInsert, dictGet, hne]
  | cons hd rest ih =>
    rw [dictInsert]
    split
    · rename_i heq
      rw [dictGet, dictGet, if_neg (by rw [heq]; exact hne), if_neg (by rw [heq]; exact hne)]
    · rw [dictGet, dictGet]
      split
      · rfl
      · exact ih

theorem dictGet_mem : ∀ (d : PyDict) (k : List Char) (v : Json),
    dictGet d k = some v → (k, v) ∈ d := by
  intro d k v
  induction d with
  | nil => intro h; exact absurd h (by simp [dictGet])
  | cons hd rest ih =>
    obtain ⟨k', v'⟩ := hd
    intro h
    rw [dictGet] at h
    split at h
    · rw [Option.some_inj] at h
      rename_i heq
      exact List.mem_cons.mpr (Or.inl (by rw [← heq, ← h]))
    · exact List.mem_cons_of_mem _ (ih h)

theorem validateScores_none_ok : ∀ (d : PyDict), validateScores d = none →
    ∀ kv ∈ d, isScoreKey kv.1 = true → scoreOk kv.2 = true := by
  intro d
  induction d with
  | nil => intro _ kv h; cases h
  | cons hd rest ih =>
    intro hnone kv hmem hkey
    rw [validateScores] at hnone
    split at hnone
    · exact absurd hnone (by simp)
    · rename_i hcond
      rcases List.mem_cons.mp hmem with rfl | hmem'
      · by_cases hok : scoreOk kv.2 = true
        · exact hok
        · exact absurd ⟨hkey, hok⟩ hcond
      · exact ih hnone kv hmem' hkey

theorem dictGet_cer_ne_jbool (m k : List Char) (b : Bool) :
    ¬ dictGet (create_error_response m) k = some (.jbool b) := by
  intro h
  have hmem := dictGet_mem _ _ _ h
  simp [create_error_response] at hmem

/-- Central case analysis: extraction always returns `.ok`, and the result is
either an ErrorRecord from `create_error_response` or the validated parsed
record with the rationale attached as `explanation`. -/
theorem extract_ok_cases (raw : List Char) :
    (∃ msg, prune_agent_extract raw = .ok (create_error_response msg)) ∨
    (∃ p0 p1 d,
      pySplitBraceNewline (cleanResponse raw) = [p0, p1] ∧
      jsonParse (lbrace :: pyStrip p1) = some (.jobj d) ∧
      validateScores d = none ∧
      prune_agent_extract raw =
        .ok (dictInsert d "explanation".data (.jstr (pyStrip p0)))) := by
  unfold prune_agent_extract
  dsimp only
  cases hs : pySplitBraceNewline (cleanResponse raw) with
  | nil => exact Or.inl ⟨_, rfl⟩
  | cons p0 rest =>
    cases rest with
    | nil => exact Or.inl ⟨_, rfl⟩
    | cons p1 rest2 =>
      cases rest2 with
      | cons x xs => exact Or.inl ⟨_, rfl⟩
      | nil =>
        dsimp only
        cases hp : jsonParse (lbrace :: pyStrip p1) with
        | none => exact Or.inl ⟨_, rfl⟩
        | some j =>
          rcases jsonParse_lbrace_obj _ _ hp with ⟨d, rfl⟩
          dsimp only
          cases hv : validateScores d with
          | some kv => exact Or.inl ⟨_, rfl⟩
          | none => exact Or.inr ⟨p0, p1, d, rfl, hp, hv, rfl⟩

/-- Claim C3: the structured-result extraction (the post-transport part of
`prune_agent`) never raises — it always returns a record, and that record is
either an ErrorRecord or a record that passed score validation and carries
the rationale as `explanation`. -/
theorem c3_extract_never_raises (raw : List Char) :
    ∃ d, prune_agent_extract raw = .ok d ∧
      (isErrorRecord d = true ∨ validRecord d = true) := by
  rcases extract_ok_cases raw with ⟨msg, hmsg⟩ | ⟨p0, p1, d, _, _, hval, hres⟩
  · exact ⟨_, hmsg, Or.inl (isErrorRecord_cer msg)⟩
  · refine ⟨_, hres, Or.inr ?_⟩
    unfold validRecord
    rw [Bool.and_eq_true]
    constructor
    · rw [dictGet_dictInsert_self]
      rfl
    · rw [List.all_eq_true]
      intro kv hkv
      rcases mem_dictInsert _ _ _ _ hkv with hmem | rfl | hexp
      · by_cases hkey : isScoreKey kv.1 = true
        · simp [hkey, validateScores_none_ok d hval kv hmem hkey]
        · simp [Bool.not_eq_true] at hkey
          simp [hkey]
      · have : isScoreKey "explanation".data = false := by decide
        simp [this]
      · have : isScoreKey kv.1 = false := by rw [hexp]; decide
        simp [this]

theorem isJint0_elim : ∀ v : Json, isJint0 v = true → v = .jint 0 := by
  intro v h
  cases v with
  | jint n =>
    rw [isJint0, decide_eq_true_eq] at h
    rw [h]
  | jfloat q => exact absurd h (by simp [isJint0])
  | jstr s => exact absurd h (by simp [isJint0])
  | jbool b => exact absurd h (by simp [isJint0])
  | jnull => exact absurd h (by simp [isJint0])
  | jnan => exact absurd h (by simp [isJint0])
  | jinf => exact absurd h (by simp [isJint0])
  | jninf => exact absurd h (by simp [isJint0])
  | jarr xs => exact absurd h (by simp [isJint0])
  | jobj kvs => exact absurd h (by simp [isJint0])

theorem isErrorRecord_true_elim (D : PyDict) (h : isErrorRecord D = true) :
    ∃ m, D = create_error_response m := by
  unfold isErrorRecord at h
  split at h
  · rename_i k1 v1 k2 v2 k3 v3 k4 v4 k5 v5 k6 v6 k7 v7 k8 v8 k9 v9 k10 v10 k11 v11
    simp only [Bool.and_eq_true, decide_eq_true_eq] at h
    obtain ⟨⟨⟨⟨⟨⟨⟨⟨⟨⟨⟨⟨⟨⟨⟨⟨⟨⟨⟨⟨⟨hk1, hv1⟩, hk2⟩, hv2⟩, hk3⟩, hv3⟩, hk4⟩, hv4⟩, hk5⟩, hv5⟩,
      hk6⟩, hv6⟩, hk7⟩, hv7⟩, hk8⟩, hv8⟩, hk9⟩, hv9⟩, hk10⟩, hv10⟩, hk11⟩, hstr⟩ := h
    subst hk1 hk2 hk3 hk4 hk5 hk6 hk7 hk8 hk9 hk10 hk11
    rw [isJint0_elim _ hv1, isJint0_elim _ hv2, isJint0_elim _ hv3, isJint0_elim _ hv4,
      isJint0_elim _ hv5, isJint0_elim _ hv6, isJint0_elim _ hv7, isJint0_elim _ hv8,
      isJint0_elim _ hv9, isJint0_elim _ hv10]
    cases v11 with
    | jstr m => exact ⟨m, rfl⟩
    | jint n => exact absurd hstr (by simp)
    | jfloat q => exact absurd hstr (by simp)
    | jbool b => exact absurd hstr (by simp)
    | jnull => exact absurd hstr (by simp)
    | jnan => exact absurd hstr (by simp)
    | jinf => exact absurd hstr (by simp)
    | jninf => exact absurd hstr (by simp)
    | jarr xs => exact absurd hstr (by simp)
    | jobj kvs => exact absurd hstr (by simp)
  · exact absurd h (by simp)

theorem insert_scores_ok (d : PyDict) (e : List Char)
    (hval : validateScores d = none) :
    ∀ kv ∈ dictInsert d "explanation".data (.jstr e),
      isScoreKey kv.1 = true → scoreOk kv.2 = true := by
  intro kv hkv hkey
  rcases mem_dictInsert _ _ _ _ hkv with hmem | rfl | hexp
  · exact validateScores_none_ok d hval kv hmem hkey
  · have hkey' : isScoreKey "explanation".data = true := hkey
    exact absurd hkey' (by decide)
  · rw [hexp] at hkey
    exact absurd hkey (by decide)

/-- Claim C5, counterexample: the claim's validation rule is stated for
field names ending in `score`, but the code validates only names ending in
`_score`.  The field `myscore` ends in `score`, carries the out-of-range
value `99`, and extraction still returns it inside a non-error record. -/
theorem c5_counterexample :
    prune_agent_extract ("x\n".data ++ braceNl ++ "\"myscore\": 99\n".data ++ [rbrace]) =
      .ok [("myscore".data, .jint 99), ("explanation".data, .jstr "x".data)] ∧
    isErrorRecord [("myscore".data, .jint 99), ("explanation".data, .jstr "x".data)] = false ∧
    "score".data.isSuffixOf "myscore".data = true ∧
    scoreOk (.jint 99) = false :=
  ⟨by rfl, by rfl, by rfl, by rfl⟩

/-- Claim C5 (amended): for every field name ending in `_score` except
`overall_score`, the value must pass the code's check — Python's
`isinstance(v, (int, float))` followed by `not (v < 0 or v > 10)`, which
accepts booleans (`True`/`False` compare as `1`/`0`) and accepts `NaN`
(both IEEE comparisons are False on `nan`) — a non-error result never
contains a `_score` field failing that check, and when the parsed record has
an offending field, extraction returns the ErrorRecord naming the first
offending field and its value.  The third part records the `NaN` leak
concretely: `json.loads` accepts `NaN` by default and the check passes it
into a non-error record, so "within [0,10]" cannot be read as a bound on the
returned value. -/
theorem c5_score_validation_amended :
    (∀ (raw : List Char) (d : PyDict), prune_agent_extract raw = .ok d →
      isErrorRecord d = false →
      ∀ kv ∈ d, isScoreKey kv.1 = true → scoreOk kv.2 = true) ∧
    (∀ (raw p0 p1 : List Char) (d : PyDict) (kv : List Char × Json),
      pySplitBraceNewline (cleanResponse raw) = [p0, p1] →
      jsonParse (lbrace :: pyStrip p1) = some (.jobj d) →
      validateScores d = some kv →
      prune_agent_extract raw =
        .ok (create_error_response
          ("Invalid score for ".data ++ kv.1 ++ ':' :: ' ' :: pyStr kv.2))) ∧
    (scoreOk .jnan = true ∧
      prune_agent_extract ("x\n".data ++ braceNl ++ "\"a_score\": NaN\n".data ++ [rbrace]) =
        .ok [("a_score".data, .jnan), ("explanation".data, .jstr "x".data)]) := by
  refine ⟨?_, ?_, rfl, by rfl⟩
  · intro raw d hres herr kv hkv hkey
    rcases extract_ok_cases raw with ⟨msg, hmsg⟩ | ⟨p0, p1, d', _, _, hval, hres'⟩
    · rw [hres] at hmsg
      have hd : d = create_error_response msg := by injection hmsg
      rw [hd, isErrorRecord_cer] at herr
      exact Bool.noConfusion herr
    · rw [hres] at hres'
      have hd : d = dictInsert d' "explanation".data (.jstr (pyStrip p0)) := by
        injection hres'
      rw [hd] at hkv
      exact insert_scores_ok d' _ hval kv hkv hkey
  · intro raw p0 p1 d kv hsplit hparse hval
    unfold prune_agent_extract
    dsimp only
    rw [hsplit]
    dsimp only
    rw [hparse]
    dsimp only
    rw [hval]

/-- Witness for C5 at the concrete input with `"a_score": 11`. -/
theorem c5_score_validation_witness :
    pySplitBraceNewline
        (cleanResponse ("x\n".data ++ braceNl ++ "\"a_score\": 11\n".data ++ [rbrace])) =
      ["x\n".data, "\"a_score\": 11\n".data ++ [rbrace]] ∧
    jsonParse (lbrace :: pyStrip ("\"a_score\": 11\n".data ++ [rbrace])) =
      some (.jobj [("a_score".data, .jint 11)]) ∧
    validateScores [("a_score".data, .jint 11)] = some ("a_score".data, .jint 11) ∧
    prune_agent_extract ("x\n".data ++ braceNl ++ "\"a_score\": 11\n".data ++ [rbrace]) =
      .ok (create_error_response "Invalid score for a_score: 11".data) :=
  ⟨by rfl, by rfl, by rfl,
    c5_score_validation_amended.2.1
      ("x\n".data ++ braceNl ++ "\"a_score\": 11\n".data ++ [rbrace])
      "x\n".data ("\"a_score\": 11\n".data ++ [rbrace])
      [("a_score".data, .jint 11)] ("a_score".data, .jint 11)
      (by rfl) (by rfl) (by rfl)⟩

/-- Claim C10: Python's `isinstance(v, (int, float))` accepts booleans
(`bool` is a subclass of `int`), and `True`/`False` compare as `1`/`0`, both
inside `[0, 10]` — so a `_score` field carrying a JSON boolean passes
validation and the returned non-error record carries the boolean
unchanged. -/
theorem c10_bool_score_accepted :
    (∀ b, scoreOk (.jbool b) = true) ∧
    (∀ (raw p0 p1 k : List Char) (d : PyDict) (b : Bool),
      pySplitBraceNewline (cleanResponse raw) = [p0, p1] →
      jsonParse (lbrace :: pyStrip p1) = some (.jobj d) →
      validateScores d = none →
      dictGet d k = some (.jbool b) →
      isScoreKey k = true →
      prune_agent_extract raw =
        .ok (dictInsert d "explanation".data (.jstr (pyStrip p0))) ∧
      dictGet (dictInsert d "explanation".data (.jstr (pyStrip p0))) k =
        some (.jbool b) ∧
      isErrorRecord (dictInsert d "explanation".data (.jstr (pyStrip p0))) = false) := by
  constructor
  · intro b; rfl
  · intro raw p0 p1 k d b hsplit hparse hval hget hkey
    have hkne : ¬ "explanation".data = k := by
      intro hk
      rw [← hk] at hkey
      exact absurd hkey (by decide)
    refine ⟨?_, ?_, ?_⟩
    · unfold prune_agent_extract
      dsimp only
      rw [hsplit]
      dsimp only
      rw [hparse]
      dsimp only
      rw [hval]
    · rw [dictGet_dictInsert_ne _ _ _ _ hkne]
      exact hget
    · by_contra hcontra
      rw [Bool.not_eq_false] at hcontra
      rcases isErrorRecord_true_elim _ hcontra with ⟨m, hm⟩
      have : dictGet (create_error_response m) k = some (.jbool b) := by
        rw [← hm, dictGet_dictInsert_ne _ _ _ _ hkne]
        exact hget
      exact dictGet_cer_ne_jbool m k b this

/-- Witness for C10 at the concrete input with `"novelty_score": true`. -/
theorem c10_bool_score_witness :
    prune_agent_extract ("ok\n".data ++ braceNl ++ "\"novelty_score\": true\n".data ++ [rbrace]) =
      .ok [("novelty_score".data, .jbool true), ("explanation".data, .jstr "ok".data)] ∧
    dictGet [("novelty_score".data, .jbool true), ("explanation".data, .jstr "ok".data)]
        "novelty_score".data = some (.jbool true) ∧
    isErrorRecord
        [("novelty_score".data, .jbool true), ("explanation".data, .jstr "ok".data)] = false := by
  have h := c10_bool_score_accepted.2
    ("ok\n".data ++ braceNl ++ "\"novelty_score\": true\n".data ++ [rbrace])
    "ok\n".data ("\"novelty_score\": true\n".data ++ [rbrace]) "novelty_score".data
    [("novelty_score".data, .jbool true)] true
    (by rfl) (by rfl) (by rfl) (by rfl) (by rfl)
  exact h

/-! ## Claim C9: re-running extraction on an ErrorRecord's explanation -/

/-- Claim C9, counterexample: the raw response
`"{\n\"a_score\": 5}``` ```"` extracts to an ErrorRecord (trailing garbage
makes `json.loads` fail), but its explanation ends in a code fence, so
re-running extraction strips that fence, the remaining text parses, and the
result is a NON-error record — re-extraction of an ErrorRecord's explanation
does not always yield an ErrorRecord. -/
theorem c9_counterexample :
    prune_agent_extract (braceNl ++ "\"a_score\": 5".data ++ rbrace :: "``` ```".data) =
      .ok (create_error_response
        ("Failed to parse evaluation JSON. Raw response: ".data ++
          braceNl ++ "\"a_score\": 5".data ++ rbrace :: "```".data)) ∧
    prune_agent_extract
        ("Failed to parse evaluation JSON. Raw response: ".data ++
          braceNl ++ "\"a_score\": 5".data ++ rbrace :: "```".data) =
      .ok [("a_score".data, .jint 5),
        ("explanation".data,
          .jstr "Failed to parse evaluation JSON. Raw response:".data)] ∧
    isErrorRecord
        [("a_score".data, .jint 5),
         ("explanation".data,
           .jstr "Failed to parse evaluation JSON. Raw response:".data)] = false :=
  ⟨by rfl, by rfl, by rfl⟩

/-- Claim C9 (amended): re-running extraction on an ErrorRecord's explanation
never raises — it always returns some record — but that record need not be an
ErrorRecord. -/
theorem c9_rerun_no_raise (raw : List Char) (d : PyDict)
    (hres : prune_agent_extract raw = .ok d) (herr : isErrorRecord d = true) :
    ∃ d', prune_agent_extract (getExplanation d) = .ok d' := by
  rcases extract_ok_cases (getExplanation d) with ⟨msg, hmsg⟩ | ⟨_, _, d', _, _, _, hres'⟩
  · exact ⟨_, hmsg⟩
  · exact ⟨_, hres'⟩

/-! ## String roundtrip, markdown-cleanup and delimiter-split lemmas
(claims C4, C7 and C8) -/

theorem escapeSimple_cons (ch : Char) (t : List Char) :
    escapeSimple (ch :: t) =
      (if ch = dquote then [bslash, dquote]
       else if ch = bslash then [bslash, bslash] else [ch]) ++ escapeSimple t := rfl

theorem parseStringAux_rt (c : List Char) (hc : ∀ ch ∈ c, 32 ≤ ch.toNat) :
    ∀ r, parseStringAux false (escapeSimple c ++ dquote :: r) = some (c, r) := by
  induction c with
  | nil =>
    intro r
    show parseStringAux false (dquote :: r) = some ([], r)
    rw [parseStringAux.eq_def]
    simp
  | cons ch t ih =>
    intro r
    have hch : 32 ≤ ch.toNat := hc ch (List.mem_cons_self ch t)
    have ht : ∀ x ∈ t, 32 ≤ x.toNat := fun x hx => hc x (List.mem_cons_of_mem ch hx)
    rw [escapeSimple_cons]
    by_cases h1 : ch = dquote
    · subst h1
      show parseStringAux false (bslash :: dquote :: (escapeSimple t ++ dquote :: r)) = _
      rw [parseStringAux.eq_def]
      simp +decide only []
      rw [parseStringAux.eq_def]
      simp +decide [escChar, ih ht]
    · by_cases h2 : ch = bslash
      · subst h2
        show parseStringAux false (bslash :: bslash :: (escapeSimple t ++ dquote :: r)) = _
        rw [parseStringAux.eq_def]
        simp +decide only []
        rw [parseStringAux.eq_def]
        simp +decide [escChar, ih ht]
      · rw [if_neg h1, if_neg h2]
        show parseStringAux false (ch :: (escapeSimple t ++ dquote :: r)) = _
        rw [parseStringAux.eq_def]
        have hlt : ¬ ch.toNat < 32 := by omega
        simp [h1, h2, hlt, ih ht]


theorem pyStrip_no_ws_ends (s : List Char)
    (hh : ∀ c, s.head? = some c → pyWs c = false)
    (hl : ∀ c, s.getLast? = some c → pyWs c = false) :
    pyStrip s = s := by
  have h1 : dropWsLeft s = s := by
    cases s with
    | nil => rfl
    | cons c t =>
      exact List.dropWhile_cons_of_neg (by simp [hh c rfl])
  unfold pyStrip
  rw [h1]
  have h2 : dropWsLeft s.reverse = s.reverse := by
    cases hr : s.reverse with
    | nil => rfl
    | cons c t =>
      have hcl : s.getLast? = some c := by
        rw [← List.head?_reverse, hr, List.head?_cons]
      exact List.dropWhile_cons_of_neg (by simp [hl c hcl])
  rw [h2, List.reverse_reverse]

theorem pySplitBraceNewline_single_occ :
    ∀ (a b : List Char), lbrace ∉ a → hasSub b braceNl = false →
      pySplitBraceNewline (a ++ lbrace :: '\n' :: b) = [a, b] := by
  intro a
  induction a with
  | nil =>
    intro b _ hb
    rw [List.nil_append]
    rw [pySplitBraceNewline, if_pos ⟨rfl, rfl⟩]
    rw [pySplitBraceNewline_eq_single b hb]
  | cons c a' ih =>
    intro b ha hb
    have hc : ¬ c = lbrace := fun h => ha (by rw [h]; simp)
    have hre : pySplitBraceNewline (lbrace :: '\n' :: b) = [[], b] := by
      rw [pySplitBraceNewline, if_pos ⟨rfl, rfl⟩]
      rw [pySplitBraceNewline_eq_single b hb]
    cases a' with
    | nil =>
      rw [List.cons_append, List.nil_append]
      rw [pySplitBraceNewline, if_neg (fun h => hc h.1)]
      rw [hre]
    | cons c2 a'' =>
      rw [show (c :: c2 :: a'' : List Char) ++ lbrace :: '\n' :: b =
        c :: c2 :: (a'' ++ lbrace :: '\n' :: b) from by simp]
      rw [pySplitBraceNewline, if_neg (fun h => hc h.1)]
      rw [show c2 :: (a'' ++ lbrace :: '\n' :: b) =
        (c2 :: a'') ++ lbrace :: '\n' :: b from rfl]
      rw [ih b (fun h => ha (by simp [h])) hb]


theorem isPrefixOf_of_longer {p q s : List Char} (hpq : p <+: q)
    (h : q.isPrefixOf s = true) : p.isPrefixOf s = true :=
  List.isPrefixOf_iff_prefix.mpr (hpq.trans (List.isPrefixOf_iff_prefix.mp h))

theorem fence_not_leading (rationale : List Char) (Z : List Char)
    (hne : rationale ≠ [])
    (hfence : ¬ "```".data.isPrefixOf rationale = true) :
    ¬ "```".data.isPrefixOf (rationale ++ '\n' :: Z) = true := by
  intro h
  rcases List.isPrefixOf_iff_prefix.mp h with ⟨r, hr⟩
  cases rationale with
  | nil => exact hne rfl
  | cons a t =>
    cases t with
    | nil =>
      rw [show (['`', '`', '`'] : List Char) ++ r = '`' :: '`' :: '`' :: r from rfl] at hr
      rw [List.cons_append, List.nil_append] at hr
      have h2 := (List.cons.injEq _ _ _ _).mp hr
      have h3 := (List.cons.injEq _ _ _ _).mp h2.2
      exact absurd h3.1 (by decide)
    | cons b t2 =>
      cases t2 with
      | nil =>
        rw [show (['`', '`', '`'] : List Char) ++ r = '`' :: '`' :: '`' :: r from rfl] at hr
        rw [List.cons_append, List.cons_append, List.nil_append] at hr
        have h2 := (List.cons.injEq _ _ _ _).mp hr
        have h3 := (List.cons.injEq _ _ _ _).mp h2.2
        have h4 := (List.cons.injEq _ _ _ _).mp h3.2
        exact absurd h4.1 (by decide)
      | cons c t3 =>
        refine hfence (List.isPrefixOf_iff_prefix.mpr ?_)
        rw [show (['`', '`', '`'] : List Char) ++ r = '`' :: '`' :: '`' :: r from rfl] at hr
        rw [List.cons_append, List.cons_append, List.cons_append] at hr
        have h2 := (List.cons.injEq _ _ _ _).mp hr
        have h3 := (List.cons.injEq _ _ _ _).mp h2.2
        have h4 := (List.cons.injEq _ _ _ _).mp h3.2
        refine ⟨t3, ?_⟩
        rw [show ("```".data : List Char) ++ t3 = '`' :: '`' :: '`' :: t3 from rfl]
        rw [← h2.1, ← h3.1, ← h4.1]

theorem fence_not_suffix (s : List Char) (c : Char) (h : s.getLast? = some c)
    (hc : ¬ c = '`') : ¬ "```".data.isSuffixOf s = true := by
  intro hs
  rcases List.isSuffixOf_iff_suffix.mp hs with ⟨r, hr⟩
  rw [← hr, List.getLast?_append] at h
  have h2 : (some '`' : Option Char) = some c := h
  exact hc (Option.some_inj.mp h2).symm

theorem cleanResponse_c4 (rationale body : List Char)
    (hne : rationale ≠ [])
    (hhead : ∀ c, rationale.head? = some c → pyWs c = false)
    (hfence : ¬ "```".data.isPrefixOf rationale = true)
    (hbne : body ≠ [])
    (hblast : ∀ c, body.getLast? = some c → pyWs c = false ∧ ¬ c = '`') :
    cleanResponse (rationale ++ '\n' :: lbrace :: '\n' :: body) =
      rationale ++ '\n' :: lbrace :: '\n' :: body := by
  obtain ⟨cb, hcb⟩ : ∃ cb, body.getLast? = some cb := by
    cases body with
    | nil => exact absurd rfl hbne
    | cons b bt => exact ⟨bt.getLast?.getD b, List.getLast?_cons⟩
  have hlast : (rationale ++ '\n' :: lbrace :: '\n' :: body).getLast? = some cb := by
    rw [show rationale ++ '\n' :: lbrace :: '\n' :: body =
      (rationale ++ ['\n', lbrace, '\n']) ++ body from by simp]
    rw [List.getLast?_append, hcb]
    rfl
  have hstrip : pyStrip (rationale ++ '\n' :: lbrace :: '\n' :: body) =
      rationale ++ '\n' :: lbrace :: '\n' :: body := by
    refine pyStrip_no_ws_ends _ (fun c hc => ?_) (fun c hc => ?_)
    · cases rationale with
      | nil => exact absurd rfl hne
      | cons a t =>
        rw [List.cons_append, List.head?_cons, Option.some_inj] at hc
        exact hc ▸ hhead a (by rw [List.head?_cons])
    · rw [hlast, Option.some_inj] at hc
      rw [← hc]
      exact (hblast cb hcb).1
  unfold cleanResponse
  rw [hstrip]
  dsimp only
  rw [if_neg (show
    ¬ "```json".data.isPrefixOf (rationale ++ '\n' :: lbrace :: '\n' :: body) = true
    from fun h => fence_not_leading rationale _ hne hfence
      (isPrefixOf_of_longer ⟨"json".data, rfl⟩ h))]
  rw [if_neg (fence_not_leading rationale _ hne hfence)]
  rw [if_neg (fence_not_suffix _ cb hlast (hblast cb hcb).2)]
  rw [hstrip]

theorem pyStrip_rationale_newline (rationale : List Char)
    (hne : rationale ≠ [])
    (hhead : ∀ c, rationale.head? = some c → pyWs c = false)
    (hlast : ∀ c, rationale.getLast? = some c → pyWs c = false) :
    pyStrip (rationale ++ ['\n']) = rationale := by
  unfold pyStrip
  have h1 : dropWsLeft (rationale ++ ['\n']) = rationale ++ ['\n'] := by
    cases rationale with
    | nil => exact absurd rfl hne
    | cons a t =>
      rw [List.cons_append]
      exact List.dropWhile_cons_of_neg (by simp [hhead a (by rw [List.head?_cons])])
  rw [h1]
  rw [List.reverse_append]
  rw [show (['\n'] : List Char).reverse = ['\n'] from rfl]
  rw [show (['\n'] : List Char) ++ rationale.reverse = '\n' :: rationale.reverse from rfl]
  rw [show dropWsLeft ('\n' :: rationale.reverse) = dropWsLeft rationale.reverse from by
    unfold dropWsLeft
    exact List.dropWhile_cons_of_pos (by decide)]
  have h2 : dropWsLeft rationale.reverse = rationale.reverse := by
    cases hr : rationale.reverse with
    | nil => rfl
    | cons c t =>
      have hcl : rationale.getLast? = some c := by
        rw [← List.head?_reverse, hr, List.head?_cons]
      exact List.dropWhile_cons_of_neg (by simp [hlast c hcl])
  rw [h2, List.reverse_reverse]

/-! ## Lemmas for the stream aggregator (claims C7 and C8) -/

theorem parseValue_renderFrame (c : List Char) (hc : ∀ ch ∈ c, 32 ≤ ch.toNat) (f : Nat) :
    parseValue (f + 9) (renderFrame c) = some (frameJson c, []) := by
  simp +decide [renderFrame, frameJson, parseValue, parseMembers, parseElements,
    skipWs, jsonWs, parseStringBody, parseStringAux_rt c hc, dictInsert, escChar,
    parseStringAux]

theorem jsonParse_renderFrame (c : List Char) (hc : ∀ ch ∈ c, 32 ≤ ch.toNat) :
    jsonParse (renderFrame c) = some (frameJson c) := by
  unfold jsonParse
  have hlen : (renderFrame c).length + 1 = ((escapeSimple c).length + 33) + 9 := by
    simp [renderFrame]
  rw [hlen, parseValue_renderFrame c hc]
  rfl

theorem frameContent_frameJson (c : List Char) :
    frameContent (frameJson c) = .ok (some c) := rfl

theorem stepLine_keepalive (acc : List Char) :
    stepLine acc (fragLine none) = .going acc := rfl

theorem stepLine_done (acc : List Char) :
    stepLine acc doneLine = .finished acc := rfl

theorem renderFrame_ne_done (c : List Char) :
    ¬ renderFrame c = "[DONE]".data := by
  intro h
  rw [renderFrame] at h
  simp +decide at h

theorem stepLine_data (acc g : List Char) :
    stepLine acc (.text ("data: ".data ++ g)) =
      (if g = "[DONE]".data then .finished acc
       else
         match jsonParse g with
         | none => .going acc
         | some j =>
           match frameContent j with
           | .error e => .raised e
           | .ok none => .going acc
           | .ok (some c) => .going (acc ++ c)) := by
  unfold stepLine
  rw [if_neg (by simp [RawLine.isEmptyBytes])]
  show (match ("data: ".data ++ g : List Char) with
    | line =>
      if "data: ".data.isPrefixOf line then _ else _) = _
  rw [if_pos (List.isPrefixOf_iff_prefix.mpr ⟨g, rfl⟩)]
  rw [show (6 : Nat) = ("data: ".data).length from rfl, List.drop_left]

theorem stepLine_content (acc c : List Char) (hc : ∀ ch ∈ c, 32 ≤ ch.toNat) :
    stepLine acc (fragLine (some c)) = .going (acc ++ c) := by
  show stepLine acc (.text ("data: ".data ++ renderFrame c)) = _
  rw [stepLine_data, if_neg (renderFrame_ne_done c), jsonParse_renderFrame c hc]
  rfl

theorem foldl_aggStep_finished (ls : List RawLine) :
    ∀ acc, ls.foldl aggStep (.finished acc) = .finished acc := by
  induction ls with
  | nil => intro acc; rfl
  | cons l t ih => intro acc; exact ih acc

theorem foldl_aggStep_frames (frs : List (Option (List Char)))
    (hc : ∀ c ∈ frs.filterMap id, ∀ ch ∈ c, 32 ≤ ch.toNat) :
    ∀ (acc : List Char) (rest : List RawLine),
      ((frs.map fragLine) ++ rest).foldl aggStep (.going acc) =
        rest.foldl aggStep (.going (acc ++ (frs.filterMap id).join)) := by
  induction frs with
  | nil =>
    intro acc rest
    simp
  | cons fr t ih =>
    intro acc rest
    cases fr with
    | none =>
      rw [List.map_cons, List.cons_append, List.foldl_cons]
      show (t.map fragLine ++ rest).foldl aggStep (stepLine acc (fragLine none)) = _
      rw [stepLine_keepalive]
      rw [ih (fun c hcm => hc c hcm) acc rest]
      rfl
    | some c =>
      have hcc : ∀ ch ∈ c, 32 ≤ ch.toNat := hc c (by simp)
      have ht : ∀ x ∈ t.filterMap id, ∀ ch ∈ x, 32 ≤ ch.toNat :=
        fun x hx => hc x (by simp [hx])
      rw [List.map_cons, List.cons_append, List.foldl_cons]
      show (t.map fragLine ++ rest).foldl aggStep (stepLine acc (fragLine (some c))) = _
      rw [stepLine_content acc c hcc, ih ht (acc ++ c) rest]
      have harg : (acc ++ c) ++ ((t.filterMap id).join) =
          acc ++ (((some c :: t).filterMap id).join) := by
        simp [List.append_assoc]
      rw [harg]

/-- Claim C7: for every fragment sequence — keep-alive (empty) lines and
content frames carrying arbitrary contents — ending in the `[DONE]` marker,
aggregation returns the verbatim concatenation of the contents in arrival
order with no separators, trimmed of leading and trailing whitespace, and
stops consuming at the marker: whatever lines follow (`rest` is arbitrary,
including undecodable ones) do not affect the result. -/
theorem c7_aggregation (frs : List (Option (List Char))) (rest : List RawLine)
    (hc : ∀ c ∈ frs.filterMap id, ∀ ch ∈ c, 32 ≤ ch.toNat) :
    call_openai_api_aggregate (frs.map fragLine ++ doneLine :: rest) =
      .ok (pyStrip (frs.filterMap id).join) := by
  unfold call_openai_api_aggregate
  rw [foldl_aggStep_frames frs hc [] (doneLine :: rest), List.foldl_cons]
  rw [show aggStep (.going (([] : List Char) ++ (frs.filterMap id).join)) doneLine =
    .finished ([] ++ (frs.filterMap id).join) from rfl]
  rw [foldl_aggStep_finished]
  rw [List.nil_append]

/-- Witness for C7 at the concrete sequence
`[content "Hel", keep-alive, content "lo "]` followed by the marker and an
extra (undecodable) fragment. -/
theorem c7_aggregation_witness :
    (∀ c ∈ ([some "Hel".data, none, some "lo ".data] :
        List (Option (List Char))).filterMap id, ∀ ch ∈ c, 32 ≤ ch.toNat) ∧
    call_openai_api_aggregate
        (([some "Hel".data, none, some "lo ".data] :
          List (Option (List Char))).map fragLine ++ doneLine :: [.undecodable]) =
      .ok "Hello".data := by
  refine ⟨by decide, ?_⟩
  rw [c7_aggregation [some "Hel".data, none, some "lo ".data] [.undecodable] (by decide)]
  rfl

/-- Claim C8, counterexample: a fragment that fails to decode as text is NOT
silently skipped — `line.decode('utf-8')` sits outside the `try`, so the
aggregation raises `UnicodeDecodeError` and the remaining fragments
(including the valid content frame `"b"` and the end marker) are never
consumed, where the claim says the result should be the remaining contents
`"ab"`. -/
theorem c8_counterexample :
    call_openai_api_aggregate
        [fragLine (some "a".data), .undecodable, fragLine (some "b".data), doneLine] =
      .error .unicodeDecodeError := by rfl

/-- Claim C8 (amended): a `data:` fragment whose payload fails to parse as
JSON is silently skipped — swallowed by the `except json.JSONDecodeError:
continue` — without raising and without aborting, so the remaining fragments
are still consumed; fragments that fail to decode as text instead raise
`UnicodeDecodeError` and abort the aggregation. -/
theorem c8_malformed_json_skipped :
    (∀ (acc g : List Char), jsonParse g = none → ¬ g = "[DONE]".data →
      stepLine acc (.text ("data: ".data ++ g)) = .going acc) ∧
    (∀ (frs : List (Option (List Char))) (g : List Char) (rest : List RawLine),
      (∀ c ∈ frs.filterMap id, ∀ ch ∈ c, 32 ≤ ch.toNat) →
      jsonParse g = none → ¬ g = "[DONE]".data →
      call_openai_api_aggregate
          (frs.map fragLine ++ .text ("data: ".data ++ g) :: rest) =
        call_openai_api_aggregate (frs.map fragLine ++ rest)) := by
  have hstep : ∀ (acc g : List Char), jsonParse g = none → ¬ g = "[DONE]".data →
      stepLine acc (.text ("data: ".data ++ g)) = .going acc := by
    intro acc g hparse hdone
    rw [stepLine_data, if_neg hdone, hparse]
  refine ⟨hstep, ?_⟩
  intro frs g rest hc hparse hdone
  unfold call_openai_api_aggregate
  rw [foldl_aggStep_frames frs hc [] (.text ("data: ".data ++ g) :: rest),
    foldl_aggStep_frames frs hc [] rest, List.foldl_cons]
  rw [show aggStep (.going (([] : List Char) ++ (frs.filterMap id).join))
      (.text ("data: ".data ++ g)) =
    stepLine ([] ++ (frs.filterMap id).join) (.text ("data: ".data ++ g)) from rfl]
  rw [hstep _ g hparse hdone]

/-- Witness for C8 (amended) at the concrete sequence with the malformed
payload `"notjson"` inserted between a content frame and the marker. -/
theorem c8_malformed_json_skipped_witness :
    jsonParse "notjson".data = none ∧
    call_openai_api_aggregate
        (([some "a".data] : List (Option (List Char))).map fragLine ++
          .text ("data: ".data ++ "notjson".data) :: [doneLine]) =
      call_openai_api_aggregate
        (([some "a".data] : List (Option (List Char))).map fragLine ++ [doneLine]) ∧
    call_openai_api_aggregate
        (([some "a".data] : List (Option (List Char))).map fragLine ++
          .text ("data: ".data ++ "notjson".data) :: [doneLine]) = .ok "a".data := by
  refine ⟨by rfl, c8_malformed_json_skipped.2 [some "a".data] "notjson".data [doneLine]
    (by decide) (by rfl) (by decide), by rfl⟩

/-- Witness for C9 at the concrete input `"hello"`. -/
theorem c9_rerun_no_raise_witness :
    prune_agent_extract "hello".data =
      .ok (create_error_response
        ("Failed to parse evaluation. Raw response: hello".data)) ∧
    isErrorRecord
      (create_error_response
        ("Failed to parse evaluation. Raw response: hello".data)) = true ∧
    ∃ d', prune_agent_extract
      (getExplanation
        (create_error_response
          ("Failed to parse evaluation. Raw response: hello".data))) = .ok d' :=
  ⟨by rfl, by rfl,
    c9_rerun_no_raise "hello".data _ (by rfl) (by rfl)⟩

/-! ## Claim C4: rationale + well-formed record extraction -/

/-- C4, counterexample: the raw text `Nice.\n{ "a_score": 5 }` has its
record-opening brace at the beginning of a line, and the record from the brace
on is well-formed JSON whose only score field is in range, yet extraction
returns the failed-to-parse ErrorRecord: the code's delimiter is the brace
followed immediately by a newline, not a brace beginning a line. -/
theorem c4_counterexample :
    c4raw = "Nice.".data ++ '\n' :: lbrace :: c4raw.drop 7 ∧
    jsonParse (c4raw.drop 6) = some (.jobj [("a_score".data, .jint 5)]) ∧
    prune_agent_extract c4raw =
      .ok (create_error_response
        ("Failed to parse evaluation. Raw response: ".data ++ c4raw)) :=
  ⟨rfl, rfl, rfl⟩


/-- C4 (amended): for every raw text consisting of a rationale segment
(nonempty, not starting or ending in whitespace, containing no opening brace,
not starting with a code fence) followed by a newline and a structured record
opened by a brace immediately followed by a newline — the two-character
delimiter `split` scans for — whose remainder contains no further such
delimiter, does not end in whitespace or a backtick, parses (with the brace
re-prefixed after the strip of line 118) as a JSON object, and whose score
fields all pass the [0,10] check, extraction locates that delimiter and
returns exactly the parsed record's fields with the rationale text added as
`explanation`. -/
theorem c4_rationale_record_amended
    (rationale body : List Char) (scores : PyDict)
    (hne : rationale ≠ [])
    (hhead : ∀ c, rationale.head? = some c → pyWs c = false)
    (hlast : ∀ c, rationale.getLast? = some c → pyWs c = false)
    (hnb : lbrace ∉ rationale)
    (hfence : ¬ "```".data.isPrefixOf rationale = true)
    (hbne : body ≠ [])
    (hblast : ∀ c, body.getLast? = some c → pyWs c = false ∧ ¬ c = '`')
    (hbsub : hasSub body braceNl = false)
    (hparse : jsonParse (lbrace :: pyStrip body) = some (.jobj scores))
    (hscores : validateScores scores = none) :
    prune_agent_extract (rationale ++ '\n' :: lbrace :: '\n' :: body) =
      .ok (dictInsert scores "explanation".data (.jstr rationale)) := by
  have hclean := cleanResponse_c4 rationale body hne hhead hfence hbne hblast
  have hsplit : pySplitBraceNewline (rationale ++ '\n' :: lbrace :: '\n' :: body) =
      [rationale ++ ['\n'], body] := by
    have h := pySplitBraceNewline_single_occ (rationale ++ ['\n']) body
      (by
        intro hm
        rcases List.mem_append.mp hm with hm | hm
        · exact hnb hm
        · exact absurd (List.mem_singleton.mp hm) (by decide))
      hbsub
    rw [List.append_assoc, List.singleton_append] at h
    exact h
  unfold prune_agent_extract
  dsimp only
  rw [hclean, hsplit]
  dsimp only
  rw [pyStrip_rationale_newline rationale hne hhead hlast]
  rw [hparse]
  dsimp only
  rw [hscores]

/-- Instantiation of the amended C4 theorem on the raw text
`Nice.\n{\n"a_score": 5\n}`, an unindented rendering of a one-field
record. -/
theorem c4_rationale_record_amended_witness :
    prune_agent_extract ("Nice.".data ++ '\n' :: lbrace :: '\n' ::
        (dquote :: "a_score".data ++ dquote :: ':' :: ' ' :: '5' :: '\n' :: [rbrace])) =
      .ok [("a_score".data, .jint 5), ("explanation".data, .jstr "Nice.".data)] := by
  have h := c4_rationale_record_amended "Nice.".data
    (dquote :: "a_score".data ++ dquote :: ':' :: ' ' :: '5' :: '\n' :: [rbrace])
    [("a_score".data, .jint 5)]
    (by decide)
    (by
      intro c hc
      have h2 : some 'N' = some c := hc
      rw [← Option.some_inj.mp h2]
      rfl)
    (by
      intro c hc
      have h2 : some '.' = some c := hc
      rw [← Option.some_inj.mp h2]
      rfl)
    (by decide)
    (by decide)
    (by decide)
    (by
      intro c hc
      have h2 : some rbrace = some c := hc
      rw [← Option.some_inj.mp h2]
      exact ⟨rfl, by decide⟩)
    (by decide)
    (by rfl)
    (by rfl)
  exact h


end BabblePrune
